import Mathlib

/-!
Verification development for the `VMExecution` engine of the
ethereumjs client (`packages/client/src/flat/snapshot.ts`, class
`VMExecution`).

The engine is embedded shallowly: hashes and state roots are `Nat`,
receipts are `List Nat`, the stores of the blockchain collaborator are
association lists, and the asynchronous methods become pure state
transformers returning the mutated state together with an outcome
(`retFalse` for an early `return false`, `threw msg` for a thrown
error, `ok` / `ret n` for a normal return).  The collaborators that
live outside this repository slice (blockchain store, VM) are modelled
from the specification's contracts and are marked as such in their doc
comments.
-/

namespace VmExec

/-- A block as the engine sees it: `header.parentHash`, `header.number`,
`header.stateRoot`, `header.timestamp`, `header.difficulty`, the block
hash and the transaction count (`block.transactions.length`). -/
structure Block where
  number : Nat
  parentHash : Nat
  hash : Nat
  stateRoot : Nat
  timestamp : Nat
  difficulty : Nat
  txs : Nat
deriving DecidableEq, Repr

/-- Association-list lookup (first binding wins, as a map). -/
def alookup {α : Type} : List (Nat × α) → Nat → Option α
  | [], _ => none
  | (k', v) :: rest, k => if k = k' then some v else alookup rest k

/-- Remove every binding of a key. -/
def aerase {α : Type} : List (Nat × α) → Nat → List (Nat × α)
  | [], _ => []
  | (k', v) :: rest, k =>
    if k' = k then aerase rest k else (k', v) :: aerase rest k

/-- Insert/overwrite a binding. -/
def ainsert {α : Type} (m : List (Nat × α)) (k : Nat) (v : α) : List (Nat × α) :=
  (k, v) :: aerase m k

/-- The blockchain store's persisted side visible to the engine:
block bodies by hash, the canonical number-to-hash map, the
hash-to-number index, total difficulty by hash, the canonical head
hash, and the named iterator cursors `vm`, `safe`, `finalized`. -/
structure Chain where
  byHash : List (Nat × Block)
  canonical : List (Nat × Nat)
  hashToNum : List (Nat × Nat)
  td : List (Nat × Nat)
  canonHead : Nat
  iterVm : Nat
  iterSafe : Option Nat
  iterFinalized : Option Nat
deriving DecidableEq, Repr

/-- `getBlock(number)`: canonical number-to-hash lookup followed by the
body lookup; `none` models the store throwing "block not found". -/
def getBlockByNumber (ch : Chain) (n : Nat) : Option Block :=
  match alookup ch.canonical n with
  | none => none
  | some h => alookup ch.byHash h

/-- The mutable state of `VMExecution` together with the stores it
drives: lifecycle flags, the cached hardfork tag, the pending-receipts
map, the receipts persisted by `receiptsManager.saveReceipts`, the set
of state roots present in the state DB (`stateManager.hasStateRoot`),
the VM's current state root (`stateManager.getStateRoot`), counters
for emitted `SYNC_EXECUTION_VM_ERROR` events and hardfork-switch log
lines, and the blockchain store. -/
structure Engine where
  started : Bool
  shutdown : Bool
  running : Bool
  hardfork : String
  pendingReceipts : List (Nat × List Nat)
  savedReceipts : List (Nat × List Nat)
  stateRoots : List Nat
  vmRoot : Nat
  vmErrorEvents : Nat
  hfSwitchLogs : Nat
  chain : Chain
deriving DecidableEq, Repr

/-- Static configuration: `config.numBlocksPerIteration`, the hardfork
table `common.getHardforkBy ∘ setHardforkBy` as a pure function of
(blockNumber, td, timestamp), and whether consensus is proof of
authority. -/
structure ExecConfig where
  numBlocksPerIteration : Nat
  hfTable : Nat → Nat → Nat → String
  poa : Bool

/-- Outcome of `vm.runBlock`. -/
inductive VmOutcome
  | ok (receipts : List Nat)
  | err (msg : String)
deriving DecidableEq, Repr

/-- Modelled from the spec: the external VM contract (§6): `runBlock`
"must either produce a valid new state root and receipts or fail; must
not leave partial state when failing", and a missing parent state root
surfaces as an error whose message contains "does not contain state
root" (§4.4, §9).  Receipts are abstracted to one receipt per
transaction. -/
def vmRunBlock (roots : List Nat) (block : Block) (root : Nat) : VmOutcome :=
  if roots.contains root then VmOutcome.ok (List.range block.txs)
  else VmOutcome.err "state trie does not contain state root"

/-- Lower-case a string's characters. -/
def lowerChars (s : String) : List Char :=
  s.toList.map Char.toLower

/-- Does the second list start with the first? -/
def charsStartWith : List Char → List Char → Bool
  | [], _ => true
  | _ :: _, [] => false
  | p :: ps, c :: cs => p == c && charsStartWith ps cs

/-- Does the second list contain the first as a contiguous run? -/
def charsContain (pat : List Char) : List Char → Bool
  | [] => pat.isEmpty
  | c :: cs => charsStartWith pat (c :: cs) || charsContain pat cs

/-- The backstep trigger of the run loop:
`` `${error}`.toLowerCase().includes('does not contain state root') ``. -/
def msgContainsMissingRoot (msg : String) : Bool :=
  charsContain "does not contain state root".toList (lowerChars msg)

/-- Modelled from the spec: `blockchain.putBlocks(blocks, true, true)`
(§4.6) "establishes canonical number→hash for each block in order";
the block bodies and the hash-to-number index are written alongside so
that `getBlock` can resolve them.  The store's own head bookkeeping is
not modelled (no claim depends on it). -/
def putBlocks (ch : Chain) (blocks : List Block) : Chain :=
  blocks.foldl
    (fun ch b =>
      { ch with
        canonical := ainsert ch.canonical b.number b.hash
        byHash := ainsert ch.byHash b.hash b
        hashToNum := ainsert ch.hashToNum b.hash b.number })
    ch

/-- One step of `setHead`'s pending-receipt drain: if the block's hash
has a pending entry, hand it to `receiptsManager.saveReceipts` and
delete it from the map. -/
def drainStep (st : Engine) (b : Block) : Engine :=
  match alookup st.pendingReceipts b.hash with
  | some r =>
    { st with
      savedReceipts := ainsert st.savedReceipts b.hash r
      pendingReceipts := aerase st.pendingReceipts b.hash }
  | none => st

/-- `setHead`'s `for (const block of blocks)` receipt drain. -/
def drainReceipts (st : Engine) (blocks : List Block) : Engine :=
  blocks.foldl drainStep st

/-- Result of a `setHead` call: the early `return false`, a thrown
error, or a normal `return true`. -/
inductive SetHeadRes
  | retFalse
  | threw (msg : String)
  | ok
deriving DecidableEq, Repr

/-- `VMExecution.setHead(blocks, {finalizedBlock, safeBlock})`.
`vmHeadBlock` is the last element of `blocks`; the canonicality loop
runs over `chainPointers = [['vmHeadBlock', vmHeadBlock]]`, i.e. over
the vm head alone, exactly as in the source. -/
def setHead (st : Engine) (blocks : List Block) (safeB finB : Option Block) :
    Engine × SetHeadRes :=
  if !st.started || st.shutdown then (st, SetHeadRes.retFalse)
  else
    match blocks.getLast? with
    | none => (st, SetHeadRes.threw "vmHeadBlock undefined")
    | some vmHead =>
      if !(st.stateRoots.contains vmHead.stateRoot) then
        (st, SetHeadRes.threw "vmHeadBlock stateRoot not found")
      else
        let st1 := { st with chain := putBlocks st.chain blocks }
        let st2 := drainReceipts st1 blocks
        match getBlockByNumber st2.chain vmHead.number with
        | none => (st2, SetHeadRes.threw "block not found")
        | some bByNum =>
          if bByNum.hash ≠ vmHead.hash then
            (st2, SetHeadRes.threw "vmHeadBlock not in canonical chain")
          else
            let ch := st2.chain
            let ch :=
              { ch with
                iterVm := vmHead.hash
                iterSafe :=
                  match safeB with
                  | some b => some b.hash
                  | none => ch.iterSafe
                iterFinalized :=
                  match finB with
                  | some b => some b.hash
                  | none => ch.iterFinalized }
            ({ st2 with chain := ch }, SetHeadRes.ok)

/-- Result of a `runWithoutSetHead` call. -/
inductive RwsRes
  | retFalse
  | threw (msg : String)
  | ok
deriving DecidableEq, Repr

/-- `VMExecution.runWithoutSetHead(opts, receipts?, blocking,
skipBlockchain)`.  When no receipts are supplied the block is run on
the VM (root defaulting to the current VM state root); the receipts
are stashed in `pendingReceipts`; unless `skipBlockchain`, one batch
writes the total-difficulty record, the block body and the
hash-to-number index while — modelled from the spec (§4.6) — the
`DBSaveLookups(hash, num, true)` op skips the canonical number-to-hash
mapping. -/
def runWithoutSetHead (st : Engine) (block : Block) (rootOpt : Option Nat)
    (receiptsArg : Option (List Nat)) (blocking skipBlockchain : Bool) :
    Engine × RwsRes :=
  if (!blocking && st.running) || !st.started || st.shutdown then
    (st, RwsRes.retFalse)
  else
    let step1 : Engine × Option (List Nat) :=
      match receiptsArg with
      | some r => (st, some r)
      | none =>
        let parentState := rootOpt.getD st.vmRoot
        match vmRunBlock st.stateRoots block parentState with
        | VmOutcome.err _ => (st, none)
        | VmOutcome.ok r =>
          ({ st with
              stateRoots := block.stateRoot :: st.stateRoots
              vmRoot := block.stateRoot }, some r)
    match step1 with
    | (_, none) => (st, RwsRes.threw "state trie does not contain state root")
    | (stA, some receipts) =>
      let stB :=
        { stA with pendingReceipts := ainsert stA.pendingReceipts block.hash receipts }
      if skipBlockchain then (stB, RwsRes.ok)
      else
        match alookup stB.chain.td block.parentHash with
        | none => (stB, RwsRes.threw "parent total difficulty not found")
        | some ptd =>
          let newTd := ptd + block.difficulty
          let ch := stB.chain
          let ch :=
            { ch with
              td := ainsert ch.td block.hash newTd
              byHash := ainsert ch.byHash block.hash block
              hashToNum := ainsert ch.hashToNum block.hash block.number }
          ({ stB with chain := ch }, RwsRes.ok)

/-- The per-batch local variables of `run`'s while body: the
callback-local `headBlock`, `parentState` and `clearCache`, the
transaction counter, and the `errorBlock` recorded by the callback's
catch clause. -/
structure CbCtx where
  headBlock : Option Block
  parentState : Option Nat
  clearCache : Bool
  txCounter : Nat
  errorBlock : Option Block
deriving DecidableEq, Repr

/-- The reset performed at the top of each while iteration of `run`. -/
def initCb : CbCtx :=
  { headBlock := none, parentState := none, clearCache := false
    txCounter := 0, errorBlock := none }

/-- The per-block callback handed to `blockchain.iterator` by `run`:
parent-state selection, hardfork transition, cancellation check, the
VM run, receipt persistence and head advancement.  A `some msg` third
component models the callback throwing; errors raised inside the `try`
block set `errorBlock`, the parent lookup before it does not. -/
def runCb (cfg : ExecConfig) (st : Engine) (c : CbCtx) (block : Block)
    (reorg : Bool) : Engine × CbCtx × Option String :=
  let sel : Option CbCtx :=
    if c.headBlock = none || reorg then
      match alookup st.chain.byHash block.parentHash with
      | none => none
      | some hb =>
        let cc := if reorg then true else st.vmRoot != hb.stateRoot
        some { c with
          headBlock := some hb
          parentState := some hb.stateRoot
          clearCache := cc }
    else some { c with clearCache := false }
  match sel with
  | none => (st, c, some "block not found")
  | some c1 =>
    match alookup st.chain.td block.parentHash with
    | none => (st, { c1 with errorBlock := some block }, some "total difficulty not found")
    | some td =>
      let hf := cfg.hfTable block.number td block.timestamp
      let st1 :=
        if hf ≠ st.hardfork then
          { st with hardfork := hf, hfSwitchLogs := st.hfSwitchLogs + 1 }
        else st
      if !st1.started then
        (st1, { c1 with errorBlock := some block }, some "Execution stopped")
      else
        let root := c1.parentState.getD st1.vmRoot
        match vmRunBlock st1.stateRoots block root with
        | VmOutcome.err m => (st1, { c1 with errorBlock := some block }, some m)
        | VmOutcome.ok receipts =>
          let st2 :=
            { st1 with
              savedReceipts := ainsert st1.savedReceipts block.hash receipts
              stateRoots := block.stateRoot :: st1.stateRoots
              vmRoot := block.stateRoot }
          (st2,
            { c1 with
              txCounter := c1.txCounter + block.txs
              headBlock := some block
              parentState := some block.stateRoot }, none)

/-- Result of one `blockchain.iterator` invocation: either it ran to
completion delivering `count` blocks, or a callback threw. -/
inductive IterOut
  | done (st : Engine) (c : CbCtx) (count : Nat)
  | failed (st : Engine) (c : CbCtx) (msg : String)
deriving Repr

/-- Modelled from the spec: `blockchain.iterate` (§6) "delivers blocks
in canonical order from the named cursor" up to `maxBlocks`, saving
the cursor after each successful callback; a callback error stops it
and is propagated ("exit and save last successfully executed head as
vmHead").  The chain is linear here, so the reorg flag is always
false (no claim exercises the rewind). -/
def iterGo (cfg : ExecConfig) : Nat → Engine → CbCtx → Nat → Nat → IterOut
  | 0, st, c, _, count => IterOut.done st c count
  | Nat.succ n, st, c, nextNum, count =>
    match alookup st.chain.canonical nextNum with
    | none => IterOut.done st c count
    | some h =>
      match alookup st.chain.byHash h with
      | none => IterOut.failed st c "block not found"
      | some b =>
        match runCb cfg st c b false with
        | (st', c', some m) => IterOut.failed st' c' m
        | (st', c', none) =>
          let st2 := { st' with chain := { st'.chain with iterVm := b.hash } }
          iterGo cfg n st2 c' (nextNum + 1) (count + 1)

/-- One `blockchain.iterator('vm', …, numBlocksPerIteration, true)`
call: resolve the cursor block and walk its canonical successors. -/
def iterate (cfg : ExecConfig) (st : Engine) : IterOut :=
  match alookup st.chain.byHash st.chain.iterVm with
  | none => IterOut.failed st initCb "iterator head not found"
  | some hb => iterGo cfg cfg.numBlocksPerIteration st initCb (hb.number + 1) 0

/-- The `.catch` clause attached to the iterator promise in `run`:
with an `errorBlock` recorded, optionally backstep the vm cursor (only
when the message contains "does not contain state root"
case-insensitively, `errorBlock.number > 1`, the callback-local
`headBlock` is defined and its state root is present), emit
`SYNC_EXECUTION_VM_ERROR`, and return
`errorBlock.number − startHeadBlock.number`; without an `errorBlock`
log and return null (`none`). -/
def handleIterError (st : Engine) (headBlock errorBlock : Option Block)
    (msg : String) (startHeadNum : Nat) : Engine × Option Int :=
  match errorBlock with
  | none => (st, none)
  | some eb =>
    let st1 :=
      if msgContainsMissingRoot msg && decide (1 < eb.number) then
        match headBlock with
        | some hb =>
          if st.stateRoots.contains hb.stateRoot then
            { st with chain := { st.chain with iterVm := hb.parentHash } }
          else st
        | none => st
      else st
    ({ st1 with vmErrorEvents := st1.vmErrorEvents + 1 },
      some ((eb.number : Int) - (startHeadNum : Int)))

/-- One while-iteration's `numExecuted = await this.vmPromise`:
the iterator's count on success, the catch clause's value otherwise. -/
def runBatch (cfg : ExecConfig) (st : Engine) (startHeadNum : Nat) :
    Engine × Option Int :=
  match iterate cfg st with
  | IterOut.done st' _ count => (st', some (count : Int))
  | IterOut.failed st' c msg =>
    handleIterError st' c.headBlock c.errorBlock msg startHeadNum

/-- The while condition of `run` (source lines 561-571).
`numExecuted` is `none` for undefined, `some none` for null, and
`some (some k)` for a number. -/
def loopCond (cfg : ExecConfig) (st : Engine) (startHead canonical : Block)
    (numExecuted : Option (Option Int)) (loop runOnlybatched : Bool) : Bool :=
  st.started && !st.shutdown &&
    (!runOnlybatched ||
      ((canonical.number : Int) - (startHead.number : Int) ≥
        (cfg.numBlocksPerIteration : Int))) &&
    (numExecuted == none ||
      (loop && numExecuted == some (some (cfg.numBlocksPerIteration : Int)))) &&
    !(startHead.hash == canonical.hash)

/-- Result of the while loop: the final `numExecuted`, or a thrown
error that escapes `run`. -/
inductive LoopRes
  | value (v : Option (Option Int))
  | threw (msg : String)
deriving DecidableEq, Repr

/-- The while loop of `run`, fuel-indexed; exhausted fuel behaves as a
loop exit.  After a non-null batch the head and canonical blocks are
refreshed from the store. -/
def runLoop (cfg : ExecConfig) :
    Nat → Engine → Block → Block → Option (Option Int) → Bool → Bool →
      Engine × LoopRes
  | 0, st, _, _, acc, _, _ => (st, LoopRes.value acc)
  | Nat.succ fuel, st, startHead, canonical, acc, loop, rob =>
    if loopCond cfg st startHead canonical acc loop rob then
      match runBatch cfg st startHead.number with
      | (st', none) => runLoop cfg fuel st' startHead canonical (some none) loop rob
      | (st', some k) =>
        match alookup st'.chain.byHash st'.chain.iterVm with
        | none => (st', LoopRes.threw "cannot get iterator head")
        | some endHead =>
          match alookup st'.chain.byHash st'.chain.canonHead with
          | none => (st', LoopRes.threw "cannot get canonical head")
          | some canonical' =>
            runLoop cfg fuel st' endHead canonical' (some (some k)) loop rob
    else (st, LoopRes.value acc)

/-- Result of a `run` call: a returned count or a thrown error. -/
inductive RunRes
  | ret (n : Int)
  | threw (msg : String)
deriving DecidableEq, Repr

/-- `VMExecution.run(loop, runOnlybatched)`: the early return when
already running / not started / shutting down, then — under the lock
with `running` set — the while loop over iterator batches, returning
`numExecuted ?? 0`. -/
def run (cfg : ExecConfig) (st : Engine) (loop rob : Bool) (fuel : Nat) :
    Engine × RunRes :=
  if st.running || !st.started || st.shutdown then (st, RunRes.ret 0)
  else
    let st0 := { st with running := true }
    match alookup st0.chain.byHash st0.chain.iterVm with
    | none => ({ st0 with running := false }, RunRes.threw "cannot get iterator head")
    | some startHead =>
      match alookup st0.chain.byHash st0.chain.canonHead with
      | none => ({ st0 with running := false }, RunRes.threw "cannot get canonical head")
      | some canonical =>
        match runLoop cfg fuel st0 startHead canonical none loop rob with
        | (st1, LoopRes.threw m) => ({ st1 with running := false }, RunRes.threw m)
        | (st1, LoopRes.value v) =>
          ({ st1 with running := false },
            RunRes.ret (match v with | some (some k) => k | _ => 0))

/-! ### The execution gate

`runWithLock` wraps every mutator as acquire → body → release over the
single `Lock`.  The lock is modelled as a transition system over task
phases: a task is outside or inside its locked body, and `acquire`
only fires when no task holds the lock. -/

/-- Phase of one caller of `runWithLock`. -/
inductive Phase
  | outside
  | inBody
deriving DecidableEq, Repr

/-- Global state of the execution gate: who holds the lock, and each
task's phase. -/
structure LockSys where
  holder : Option Nat
  phase : Nat → Phase

/-- The two transitions of `runWithLock`: `this._lock.acquire()`
(suspends until the lock is free) entering the body, and the `finally`
release leaving it. -/
inductive LockStep : LockSys → LockSys → Prop
  | acquire (s : LockSys) (t : Nat) :
      s.holder = none →
      LockStep s
        { holder := some t
          phase := fun u => if u = t then Phase.inBody else s.phase u }
  | release (s : LockSys) (t : Nat) :
      s.holder = some t →
      LockStep s
        { holder := none
          phase := fun u => if u = t then Phase.outside else s.phase u }

/-- Initial gate state: lock free, every task outside. -/
def initLock : LockSys :=
  { holder := none, phase := fun _ => Phase.outside }

/-- States reachable by any interleaving of acquires and releases. -/
inductive LockReachable : LockSys → Prop
  | init : LockReachable initLock
  | step {s s' : LockSys} : LockReachable s → LockStep s s' → LockReachable s'

/-- Gate invariant: a task inside its body holds the lock. -/
def lockInv (s : LockSys) : Prop :=
  ∀ t, s.phase t = Phase.inBody → s.holder = some t

/-- The gate state after task 0 acquires the lock from the initial
state. -/
def lockS1 : LockSys :=
  { holder := some 0
    phase := fun u => if u = 0 then Phase.inBody else Phase.outside }

/-! ### Concrete scenario states -/

/-- Block `i` of the linear test chain: hash `100 + i`, parent hash
`99 + i`, state root `200 + i`. -/
def mkBlock (i : Nat) : Block :=
  { number := i, parentHash := 99 + i, hash := 100 + i, stateRoot := 200 + i
    timestamp := 0, difficulty := 1, txs := 0 }

/-- The linear chain of blocks `0 … n`. -/
def linBlocks (n : Nat) : List Block :=
  (List.range (n + 1)).map mkBlock

/-- A populated store holding blocks `0 … n` with canonical head `n`
and the vm cursor at block `vmAt`. -/
def linChain (n vmAt : Nat) : Chain :=
  { byHash := (linBlocks n).map (fun b => (b.hash, b))
    canonical := (linBlocks n).map (fun b => (b.number, b.hash))
    hashToNum := (linBlocks n).map (fun b => (b.hash, b.number))
    td := (linBlocks n).map (fun b => (b.hash, b.number + 1))
    canonHead := 100 + n
    iterVm := 100 + vmAt
    iterSafe := none
    iterFinalized := none }

/-- A started engine over a given store with the given set of present
state roots and current VM root. -/
def mkEngine (ch : Chain) (roots : List Nat) (vmRoot : Nat) : Engine :=
  { started := true, shutdown := false, running := false
    hardfork := "chainstart", pendingReceipts := [], savedReceipts := []
    stateRoots := roots, vmRoot := vmRoot, vmErrorEvents := 0
    hfSwitchLogs := 0, chain := ch }

/-- A configuration with the given batch size and a constant hardfork
table. -/
def cfgWith (per : Nat) : ExecConfig :=
  { numBlocksPerIteration := per, hfTable := fun _ _ _ => "chainstart"
    poa := false }

/-- Scenario of claim C2: blocks `0 … 6`, vm cursor at block 5, state
roots `S_0 … S_4` present and `S_5` deleted, VM root still `S_5`. -/
def stC2 : Engine :=
  mkEngine (linChain 6 5) ((List.range 5).map (200 + ·)) 205

/-- Counterexample scenario for claim C7: blocks `0 … 3`, vm cursor at
block 0, `numBlocksPerIteration = 2`. -/
def stC7 : Engine :=
  mkEngine (linChain 3 0) [200] 200

/-- Scenario of the batched-run test of claim C7: blocks `0 … 10`, vm
cursor at block 0, `numBlocksPerIteration = 4`. -/
def stC7b : Engine :=
  mkEngine (linChain 10 0) [200] 200

/-- Hardfork table for the C8 scenario: transition at block 5. -/
def cfgC8 : ExecConfig :=
  { numBlocksPerIteration := 10
    hfTable := fun n _ _ => if 5 ≤ n then "london" else "berlin"
    poa := false }

/-- Scenario of claim C8: blocks `0 … 6`, vm cursor at block 0, engine
hardfork "berlin". -/
def stC8 : Engine :=
  { mkEngine (linChain 6 0) [200] 200 with hardfork := "berlin" }

/-- Candidate head block for the setHead scenarios: block 11 on top of
the linear chain. -/
def b11 : Block := mkBlock 11

/-- A "safe" pointer whose hash (999) differs from the canonical hash
at its number (block 10's hash is 110). -/
def b10safe : Block :=
  { number := 10, parentHash := 109, hash := 999, stateRoot := 210
    timestamp := 0, difficulty := 1, txs := 0 }

/-- Scenario of claim C1: store `0 … 10`, state root of block 11
present so `setHead` passes its precheck. -/
def stC1 : Engine :=
  mkEngine (linChain 10 10) [211] 210

/-- Scenario of claim C5's counterexample: block 11's state root is
absent and its receipts are pending. -/
def stC5 : Engine :=
  { mkEngine (linChain 10 10) [] 210 with
    pendingReceipts := [(b11.hash, [1, 2])] }

/-- Scenario of claim C6's witness: block 11 is executed without
setHead on top of the `0 … 10` store (VM root `S_10` present); the
block body of 11 is already stored, as after a previous identical
execution. -/
def stC6 : Engine :=
  mkEngine
    { linChain 10 10 with byHash := (b11.hash, b11) :: (linChain 10 10).byHash }
    [210] 210

/-- Engine that is not started, for claim C9's witness. -/
def stC9a : Engine :=
  { mkEngine (linChain 1 0) [] 0 with started := false }

/-- Engine with an execution in flight, for claim C9's witness. -/
def stC9b : Engine :=
  { mkEngine (linChain 1 0) [] 0 with running := true }

/-- Scenario of claim C3's witness: the state root of block 4 is
present, the one of block 5 is not. -/
def stC3 : Engine :=
  mkEngine (linChain 6 5) [204] 205

/-- Scenario of claim C5's witness: like `stC1` but with a pending
receipt entry for block 11. -/
def stC5w : Engine :=
  { stC1 with pendingReceipts := [(b11.hash, [7])] }

/-- An error message for claim C3's witness, in mixed case. -/
def msgC3 : String :=
  "Error: state trie DOES NOT Contain State Root 0x05"

/-- Callback context for claim C8's witness: the previous block 4 is
the callback-local head block. -/
def cbC8 : CbCtx :=
  { initCb with headBlock := some (mkBlock 4), parentState := some 204 }

/-- First `run(loop=false)` call of the batched-run scenario. -/
def c7runA : Engine × RunRes := run (cfgWith 4) stC7b false false 2

/-- Second `run(loop=false)` call of the batched-run scenario. -/
def c7runB : Engine × RunRes := run (cfgWith 4) c7runA.1 false false 2

/-- Third `run(loop=false)` call of the batched-run scenario. -/
def c7runC : Engine × RunRes := run (cfgWith 4) c7runB.1 false false 2

/-! ### Helper lemmas -/

theorem alookup_aerase_self {α : Type} (m : List (Nat × α)) (k : Nat) :
    alookup (aerase m k) k = none := by
  induction m with
  | nil => rfl
  | cons p rest ih =>
    obtain ⟨k', v⟩ := p
    by_cases h : k' = k
    · simp [aerase, h, ih]
    · simp [aerase, alookup, h, ih, Ne.symm h]

theorem alookup_aerase_ne {α : Type} (m : List (Nat × α)) (k k' : Nat)
    (h : k' ≠ k) : alookup (aerase m k) k' = alookup m k' := by
  induction m with
  | nil => rfl
  | cons p rest ih =>
    obtain ⟨a, v⟩ := p
    by_cases ha : a = k
    · subst ha
      simp [aerase, alookup, h, ih]
    · by_cases hk : k' = a <;> simp [aerase, alookup, ha, hk, ih]

theorem alookup_ainsert_self {α : Type} (m : List (Nat × α)) (k : Nat) (v : α) :
    alookup (ainsert m k v) k = some v := by
  simp [ainsert, alookup]

theorem alookup_ainsert_ne {α : Type} (m : List (Nat × α)) (k k' : Nat) (v : α)
    (h : k' ≠ k) : alookup (ainsert m k v) k' = alookup m k' := by
  simp [ainsert, alookup, h, alookup_aerase_ne m k k' h]

theorem putBlocks_cursors (bs : List Block) : ∀ ch : Chain,
    (putBlocks ch bs).iterVm = ch.iterVm ∧
    (putBlocks ch bs).iterSafe = ch.iterSafe ∧
    (putBlocks ch bs).iterFinalized = ch.iterFinalized := by
  induction bs with
  | nil => intro ch; exact ⟨rfl, rfl, rfl⟩
  | cons b rest ih =>
    intro ch
    simpa [putBlocks] using
      ih { ch with
        canonical := ainsert ch.canonical b.number b.hash
        byHash := ainsert ch.byHash b.hash b
        hashToNum := ainsert ch.hashToNum b.hash b.number }

theorem putBlocks_last (v : Block) : ∀ (bs : List Block) (ch : Chain),
    bs.getLast? = some v →
    alookup (putBlocks ch bs).canonical v.number = some v.hash ∧
    alookup (putBlocks ch bs).byHash v.hash = some v
  | [], _, h => by simp at h
  | [x], ch, h => by
    have hv : x = v := by simpa using h
    subst hv
    constructor
    · simpa [putBlocks] using alookup_ainsert_self ch.canonical x.number x.hash
    · simpa [putBlocks] using alookup_ainsert_self ch.byHash x.hash x
  | x :: y :: rest, ch, h => by
    have h' : (y :: rest).getLast? = some v := h
    simpa [putBlocks] using
      putBlocks_last v (y :: rest)
        { ch with
          canonical := ainsert ch.canonical x.number x.hash
          byHash := ainsert ch.byHash x.hash x
          hashToNum := ainsert ch.hashToNum x.hash x.number } h'

theorem drainStep_chain (st : Engine) (b : Block) :
    (drainStep st b).chain = st.chain := by
  unfold drainStep
  split <;> rfl

theorem drain_chain (bs : List Block) : ∀ st : Engine,
    (drainReceipts st bs).chain = st.chain := by
  induction bs with
  | nil => intro st; rfl
  | cons b rest ih =>
    intro st
    simpa [drainReceipts, drainStep_chain] using
      (ih (drainStep st b)).trans (drainStep_chain st b)

theorem drainStep_absent (st : Engine) (b : Block) (k : Nat)
    (h : alookup st.pendingReceipts k = none) :
    alookup (drainStep st b).pendingReceipts k = none := by
  unfold drainStep
  split
  · by_cases hk : k = b.hash
    · subst hk; exact alookup_aerase_self _ _
    · simpa [alookup_aerase_ne _ _ _ hk] using h
  · exact h

theorem drainStep_self (st : Engine) (b : Block) :
    alookup (drainStep st b).pendingReceipts b.hash = none := by
  unfold drainStep
  split
  · exact alookup_aerase_self _ _
  · assumption

theorem drain_absent (bs : List Block) : ∀ (st : Engine) (k : Nat),
    alookup st.pendingReceipts k = none →
    alookup (drainReceipts st bs).pendingReceipts k = none := by
  induction bs with
  | nil => intro st k h; exact h
  | cons b rest ih =>
    intro st k h
    simpa [drainReceipts] using ih (drainStep st b) k (drainStep_absent st b k h)

theorem drain_mem (bs : List Block) (b : Block) (h : b ∈ bs) : ∀ st : Engine,
    alookup (drainReceipts st bs).pendingReceipts b.hash = none := by
  induction bs with
  | nil => cases h
  | cons x rest ih =>
    intro st
    rcases List.mem_cons.mp h with hbx | hmem
    · subst hbx
      simpa [drainReceipts] using
        drain_absent rest (drainStep st b) b.hash (drainStep_self st b)
    · simpa [drainReceipts] using ih hmem (drainStep st x)

/-- `setHead` on a started engine whose vm-head state root is present
runs to completion: the blocks are put, the pending receipts drained,
the vm-head canonicality check passes (the batched `putBlocks` has
just made it canonical), and the cursors advance. -/
theorem setHead_success (st : Engine) (blocks : List Block)
    (sb fb : Option Block) (vmHead : Block)
    (h1 : st.started = true) (h2 : st.shutdown = false)
    (h3 : blocks.getLast? = some vmHead)
    (h4 : st.stateRoots.contains vmHead.stateRoot = true) :
    setHead st blocks sb fb =
      (let st2 := drainReceipts { st with chain := putBlocks st.chain blocks } blocks
       ({ st2 with chain :=
            { st2.chain with
              iterVm := vmHead.hash
              iterSafe :=
                match sb with
                | some b => some b.hash
                | none => st2.chain.iterSafe
              iterFinalized :=
                match fb with
                | some b => some b.hash
                | none => st2.chain.iterFinalized } },
        SetHeadRes.ok)) := by
  have hchain :
      (drainReceipts { st with chain := putBlocks st.chain blocks } blocks).chain =
        putBlocks st.chain blocks :=
    drain_chain blocks _
  have hlast := putBlocks_last vmHead blocks st.chain h3
  have hscrut :
      getBlockByNumber
        (drainReceipts { st with chain := putBlocks st.chain blocks } blocks).chain
        vmHead.number = some vmHead := by
    unfold getBlockByNumber
    rw [hchain, hlast.1]
    exact hlast.2
  unfold setHead
  rw [if_neg (by simp [h1, h2]), h3]
  dsimp only
  rw [if_neg (by rw [h4]; decide)]
  rw [hscrut]
  dsimp only
  rw [if_neg (by simp)]

/-- Every result of `setHead` other than `ok` leaves all three
iterator cursors untouched. -/
theorem setHead_not_ok_cursors (st : Engine) (blocks : List Block)
    (sb fb : Option Block) :
    (setHead st blocks sb fb).2 = SetHeadRes.ok ∨
    ((setHead st blocks sb fb).1.chain.iterVm = st.chain.iterVm ∧
     (setHead st blocks sb fb).1.chain.iterSafe = st.chain.iterSafe ∧
     (setHead st blocks sb fb).1.chain.iterFinalized = st.chain.iterFinalized) := by
  have hcur :
      ∀ bs : List Block,
        (drainReceipts { st with chain := putBlocks st.chain bs } bs).chain.iterVm =
            st.chain.iterVm ∧
          (drainReceipts { st with chain := putBlocks st.chain bs } bs).chain.iterSafe =
            st.chain.iterSafe ∧
          (drainReceipts { st with chain := putBlocks st.chain bs } bs).chain.iterFinalized =
            st.chain.iterFinalized := by
    intro bs
    rw [drain_chain bs]
    exact putBlocks_cursors bs st.chain
  by_cases hEarly : (!st.started || st.shutdown) = true
  · unfold setHead
    rw [if_pos hEarly]
    exact Or.inr ⟨rfl, rfl, rfl⟩
  · cases hL : blocks.getLast? with
    | none =>
      unfold setHead
      rw [if_neg hEarly, hL]
      exact Or.inr ⟨rfl, rfl, rfl⟩
    | some vmHead =>
      by_cases hRoot : (!(st.stateRoots.contains vmHead.stateRoot)) = true
      · unfold setHead
        rw [if_neg hEarly, hL]
        dsimp only
        rw [if_pos hRoot]
        exact Or.inr ⟨rfl, rfl, rfl⟩
      · unfold setHead
        rw [if_neg hEarly, hL]
        dsimp only
        rw [if_neg hRoot]
        cases hG :
            getBlockByNumber
              (drainReceipts { st with chain := putBlocks st.chain blocks } blocks).chain
              vmHead.number with
        | none =>
          exact Or.inr (hcur blocks)
        | some bn =>
          dsimp only
          by_cases hH : bn.hash ≠ vmHead.hash
          · rw [if_pos hH]
            exact Or.inr (hcur blocks)
          · rw [if_neg hH]
            exact Or.inl rfl

/-- The gate invariant holds in every reachable state. -/
theorem lockInv_reachable (s : LockSys) (hs : LockReachable s) : lockInv s := by
  induction hs with
  | init =>
    intro t h
    exact absurd h (by simp [initLock])
  | step hr hstep ih =>
    cases hstep with
    | acquire t hnone =>
      intro u hu
      by_cases hut : u = t
      · subst hut; simp
      · simp only [hut, if_false] at hu
        exact absurd (ih u hu) (by simp [hnone])
    | release t hsome =>
      intro u hu
      by_cases hut : u = t
      · subst hut; simp at hu
      · simp only [hut, if_false] at hu
        have := (ih u hu).symm.trans hsome
        exact absurd (Option.some.inj this).symm (fun h => hut h.symm)

/-- A `runWithoutSetHead` call with `skipBlockchain = false` that
returns `true` has looked up the parent's total difficulty and left
the chain equal to the old chain with exactly the total-difficulty
record, the block body and the hash-to-number entry inserted. -/
theorem rws_ok_chain (st : Engine) (b : Block) (rootOpt : Option Nat)
    (rcpts : Option (List Nat)) (blocking : Bool)
    (hok : (runWithoutSetHead st b rootOpt rcpts blocking false).2 = RwsRes.ok) :
    ∃ ptd, alookup st.chain.td b.parentHash = some ptd ∧
      (runWithoutSetHead st b rootOpt rcpts blocking false).1.chain =
        { st.chain with
          td := ainsert st.chain.td b.hash (ptd + b.difficulty)
          byHash := ainsert st.chain.byHash b.hash b
          hashToNum := ainsert st.chain.hashToNum b.hash b.number } := by
  by_cases hC : ((!blocking && st.running) || !st.started || st.shutdown) = true
  · unfold runWithoutSetHead at hok
    rw [if_pos hC] at hok
    simp at hok
  · unfold runWithoutSetHead at hok ⊢
    rw [if_neg hC] at hok ⊢
    cases rcpts with
    | some r =>
      dsimp only at hok ⊢
      cases hT : alookup st.chain.td b.parentHash with
      | none => simp [hT] at hok
      | some ptd => exact ⟨ptd, rfl, rfl⟩
    | none =>
      dsimp only at hok ⊢
      cases hV : vmRunBlock st.stateRoots b (rootOpt.getD st.vmRoot) with
      | err m => simp [hV] at hok
      | ok r =>
        rw [hV] at hok
        dsimp only at hok ⊢
        cases hT : alookup st.chain.td b.parentHash with
        | none => simp [hT] at hok
        | some ptd => exact ⟨ptd, rfl, rfl⟩

/-! ### Claim theorems -/

/-- Claim C6 (confirmed): a successful `runWithoutSetHead` with
`skipBlockchain = false` writes the total-difficulty record, the block
body and the hash-to-number index in its batch, but leaves the
canonical number-to-hash mapping unchanged: looking a block up by
number behaves exactly as before the call (given that the new block's
hash is either already stored consistently or not referenced by the
canonical map). -/
theorem c6_theorem (st : Engine) (b : Block) (rootOpt : Option Nat)
    (rcpts : Option (List Nat)) (blocking : Bool)
    (hok : (runWithoutSetHead st b rootOpt rcpts blocking false).2 = RwsRes.ok)
    (hc : alookup st.chain.byHash b.hash = some b ∨
          ∀ n, alookup st.chain.canonical n ≠ some b.hash) :
    (runWithoutSetHead st b rootOpt rcpts blocking false).1.chain.canonical =
        st.chain.canonical ∧
    alookup (runWithoutSetHead st b rootOpt rcpts blocking false).1.chain.byHash
        b.hash = some b ∧
    alookup (runWithoutSetHead st b rootOpt rcpts blocking false).1.chain.hashToNum
        b.hash = some b.number ∧
    alookup (runWithoutSetHead st b rootOpt rcpts blocking false).1.chain.td
        b.hash ≠ none ∧
    ∀ n, getBlockByNumber (runWithoutSetHead st b rootOpt rcpts blocking false).1.chain n =
        getBlockByNumber st.chain n := by
  obtain ⟨ptd, hT, hch⟩ := rws_ok_chain st b rootOpt rcpts blocking hok
  rw [hch]
  refine ⟨rfl, alookup_ainsert_self _ _ _, alookup_ainsert_self _ _ _, ?_, ?_⟩
  · rw [alookup_ainsert_self]
    simp
  · intro n
    unfold getBlockByNumber
    dsimp only
    cases hcan : alookup st.chain.canonical n with
    | none => rfl
    | some h =>
      dsimp only
      by_cases hh : h = b.hash
      · subst hh
        rw [alookup_ainsert_self]
        rcases hc with hc | hc
        · exact hc.symm
        · exact absurd hcan (hc n)
      · rw [alookup_ainsert_ne _ _ _ _ hh]

/-- Witness for claim C6's theorem at a concrete input. -/
theorem c6_witness :
    (runWithoutSetHead stC6 b11 none none false false).2 = RwsRes.ok ∧
    alookup stC6.chain.byHash b11.hash = some b11 ∧
    ((runWithoutSetHead stC6 b11 none none false false).1.chain.canonical =
        stC6.chain.canonical ∧
     alookup (runWithoutSetHead stC6 b11 none none false false).1.chain.byHash
        b11.hash = some b11 ∧
     alookup (runWithoutSetHead stC6 b11 none none false false).1.chain.hashToNum
        b11.hash = some b11.number ∧
     alookup (runWithoutSetHead stC6 b11 none none false false).1.chain.td
        b11.hash ≠ none ∧
     ∀ n, getBlockByNumber (runWithoutSetHead stC6 b11 none none false false).1.chain n =
        getBlockByNumber stC6.chain n) :=
  ⟨by decide, by decide,
    c6_theorem stC6 b11 none none false (by decide) (Or.inl (by decide))⟩

/-- Claim C8 (confirmed): for a block delivered to the per-block
callback, the hardfork tag derived from (number, td, timestamp) is
compared to the engine's hardfork before `runBlock` — the tag is
updated and one switch log emitted exactly when they differ, whatever
`runBlock` then does; and a concrete run crossing the table transition
at block 5 ends with hardfork "london" and exactly one switch log. -/
theorem c8_theorem (cfg : ExecConfig) (st : Engine) (c : CbCtx) (block hb : Block)
    (tdv : Nat)
    (h1 : c.headBlock = some hb)
    (h2 : alookup st.chain.td block.parentHash = some tdv) :
    ((runCb cfg st c block false).1.hardfork =
        cfg.hfTable block.number tdv block.timestamp ∧
     (runCb cfg st c block false).1.hfSwitchLogs =
        st.hfSwitchLogs +
          (if cfg.hfTable block.number tdv block.timestamp = st.hardfork
           then 0 else 1)) ∧
    ((run cfgC8 stC8 true false 2).2 = RunRes.ret 6 ∧
     (run cfgC8 stC8 true false 2).1.hardfork = "london" ∧
     (run cfgC8 stC8 true false 2).1.hfSwitchLogs = 1) := by
  refine ⟨?_, by decide, by decide, by decide⟩
  have hcond : ¬((decide ((some hb : Option Block) = none) || false) = true) := by simp
  unfold runCb
  rw [h1, if_neg hcond]
  dsimp only
  rw [h2]
  dsimp only
  by_cases hhf : cfg.hfTable block.number tdv block.timestamp = st.hardfork
  · rw [if_neg (not_not_intro hhf), if_pos hhf]
    split
    · exact ⟨hhf.symm, by simp⟩
    · split
      · exact ⟨hhf.symm, by simp⟩
      · exact ⟨hhf.symm, by simp⟩
  · rw [if_pos hhf, if_neg hhf]
    split
    · exact ⟨rfl, rfl⟩
    · split
      · exact ⟨rfl, rfl⟩
      · exact ⟨rfl, rfl⟩

/-- Witness for claim C8's theorem: the callback on block 5 with head
block 4, crossing the "berlin" to "london" transition. -/
theorem c8_witness :
    cbC8.headBlock = some (mkBlock 4) ∧
    alookup stC8.chain.td (mkBlock 5).parentHash = some 5 ∧
    (((runCb cfgC8 stC8 cbC8 (mkBlock 5) false).1.hardfork =
        cfgC8.hfTable (mkBlock 5).number 5 (mkBlock 5).timestamp ∧
      (runCb cfgC8 stC8 cbC8 (mkBlock 5) false).1.hfSwitchLogs =
        stC8.hfSwitchLogs +
          (if cfgC8.hfTable (mkBlock 5).number 5 (mkBlock 5).timestamp = stC8.hardfork
           then 0 else 1)) ∧
     ((run cfgC8 stC8 true false 2).2 = RunRes.ret 6 ∧
      (run cfgC8 stC8 true false 2).1.hardfork = "london" ∧
      (run cfgC8 stC8 true false 2).1.hfSwitchLogs = 1)) :=
  ⟨rfl, by decide,
    c8_theorem cfgC8 stC8 cbC8 (mkBlock 5) (mkBlock 4) 5 rfl (by decide)⟩

/-- Claim C1, amended (corrected): after the batched `putBlocks`,
`setHead` verifies canonicality of the vm head block only — the last
element of `blocks`, which `putBlocks` has just made canonical, so the
check passes and `setHead` succeeds; the outcome is independent of the
`safeBlock` and `finalizedBlock` arguments, whose canonicality is
never compared. -/
theorem c1_theorem (st : Engine) (blocks : List Block) (sb fb : Option Block)
    (vmHead : Block)
    (h1 : st.started = true) (h2 : st.shutdown = false)
    (h3 : blocks.getLast? = some vmHead)
    (h4 : st.stateRoots.contains vmHead.stateRoot = true) :
    (setHead st blocks sb fb).2 = SetHeadRes.ok ∧
    getBlockByNumber (setHead st blocks sb fb).1.chain vmHead.number = some vmHead ∧
    ∀ sb2 fb2 : Option Block,
      (setHead st blocks sb2 fb2).2 = (setHead st blocks sb fb).2 := by
  have hchain :
      (drainReceipts { st with chain := putBlocks st.chain blocks } blocks).chain =
        putBlocks st.chain blocks :=
    drain_chain blocks _
  have hlast := putBlocks_last vmHead blocks st.chain h3
  have hs := setHead_success st blocks sb fb vmHead h1 h2 h3 h4
  refine ⟨by rw [hs], ?_, ?_⟩
  · rw [hs]
    unfold getBlockByNumber
    dsimp only
    rw [hchain, hlast.1]
    exact hlast.2
  · intro sb2 fb2
    rw [hs, setHead_success st blocks sb2 fb2 vmHead h1 h2 h3 h4]

/-- Claim C1 counterexample: a `setHead` whose `safeBlock` is not
canonical (the canonical block at its number has a different hash)
still returns `true` — refuting "setHead fails if and only if some
named block's hash differs". -/
theorem c1_counterexample :
    (setHead stC1 [b11] (some b10safe) none).2 = SetHeadRes.ok ∧
    (getBlockByNumber (setHead stC1 [b11] (some b10safe) none).1.chain
        b10safe.number).map Block.hash ≠ some b10safe.hash := by
  decide

/-- Witness for claim C1's amended theorem at a concrete input. -/
theorem c1_witness :
    stC1.started = true ∧ [b11].getLast? = some b11 ∧
    stC1.stateRoots.contains b11.stateRoot = true ∧
    ((setHead stC1 [b11] (some b10safe) none).2 = SetHeadRes.ok ∧
     getBlockByNumber (setHead stC1 [b11] (some b10safe) none).1.chain b11.number =
       some b11 ∧
     ∀ sb2 fb2 : Option Block,
       (setHead stC1 [b11] sb2 fb2).2 = (setHead stC1 [b11] (some b10safe) none).2) :=
  ⟨rfl, rfl, by decide,
    c1_theorem stC1 [b11] (some b10safe) none b11 rfl rfl rfl (by decide)⟩

/-- Claim C2, amended (corrected): in the missing-state-root scenario
(vm at block 5, `S_5` deleted) the failed block is block 6, so `run`
returns `6 − 5 = 1` rather than 0; the cursor is not rewound (the
backstep requires the parent's state root `S_5` to be present, and it
is exactly the root that was deleted), staying at block 5's hash; one
`SYNC_EXECUTION_VM_ERROR` is emitted.  In general the error handler
returns `errorBlock.number − startHead.number`. -/
theorem c2_theorem :
    (∀ (st : Engine) (hb : Option Block) (eb : Block) (msg : String) (sn : Nat),
      (handleIterError st hb (some eb) msg sn).2 =
        some ((eb.number : Int) - (sn : Int))) ∧
    (run (cfgWith 100) stC2 true false 3).2 = RunRes.ret 1 ∧
    (run (cfgWith 100) stC2 true false 3).1.chain.iterVm = (mkBlock 5).hash ∧
    (run (cfgWith 100) stC2 true false 3).1.vmErrorEvents = stC2.vmErrorEvents + 1 :=
  ⟨fun _ _ _ _ _ => rfl, by decide, by decide, by decide⟩

/-- Claim C2 counterexample: in that scenario `run` neither returns 0
nor rewinds the cursor to block 3's hash. -/
theorem c2_counterexample :
    ¬((run (cfgWith 100) stC2 true false 3).2 = RunRes.ret 0 ∧
      (run (cfgWith 100) stC2 true false 3).1.chain.iterVm = (mkBlock 3).hash) := by
  decide

/-- Claim C3 (confirmed): under a missing-state-root error message
(case-insensitive) with `errorBlock.number > 1`, the error handler
backsteps the vm cursor to the callback-local head block's parent hash
exactly when that head block is defined and its state root is present,
and leaves the cursor (and the other cursors) unmodified otherwise. -/
theorem c3_theorem (st : Engine) (hbOpt : Option Block) (eb : Block)
    (msg : String) (sn : Nat)
    (h1 : msgContainsMissingRoot msg = true) (h2 : 1 < eb.number) :
    ((handleIterError st hbOpt (some eb) msg sn).1.chain.iterVm =
      match hbOpt with
      | some hb =>
        if st.stateRoots.contains hb.stateRoot then hb.parentHash
        else st.chain.iterVm
      | none => st.chain.iterVm) ∧
    (handleIterError st hbOpt (some eb) msg sn).1.chain.iterSafe =
      st.chain.iterSafe ∧
    (handleIterError st hbOpt (some eb) msg sn).1.chain.iterFinalized =
      st.chain.iterFinalized := by
  have hd : decide (1 < eb.number) = true := decide_eq_true h2
  unfold handleIterError
  simp only [h1, hd, Bool.and_self, if_true]
  cases hbOpt with
  | none => exact ⟨rfl, rfl, rfl⟩
  | some hb =>
    by_cases hc : st.stateRoots.contains hb.stateRoot = true
    · have hm : hb.stateRoot ∈ st.stateRoots := by simpa using hc
      simp [hm]
    · have hm : ¬hb.stateRoot ∈ st.stateRoots := by simpa using hc
      simp [hm]

/-- Witness for claim C3's theorem: a mixed-case error message, error
block 5, head block 4 whose root is present — the cursor is set to
block 4's parent hash (block 3). -/
theorem c3_witness :
    msgContainsMissingRoot msgC3 = true ∧ 1 < (mkBlock 5).number ∧
    (((handleIterError stC3 (some (mkBlock 4)) (some (mkBlock 5)) msgC3 5).1.chain.iterVm =
       match (some (mkBlock 4) : Option Block) with
       | some hb =>
         if stC3.stateRoots.contains hb.stateRoot then hb.parentHash
         else stC3.chain.iterVm
       | none => stC3.chain.iterVm) ∧
     (handleIterError stC3 (some (mkBlock 4)) (some (mkBlock 5)) msgC3 5).1.chain.iterSafe =
       stC3.chain.iterSafe ∧
     (handleIterError stC3 (some (mkBlock 4)) (some (mkBlock 5)) msgC3 5).1.chain.iterFinalized =
       stC3.chain.iterFinalized) :=
  ⟨by decide, by decide,
    c3_theorem stC3 (some (mkBlock 4)) (mkBlock 5) msgC3 5 (by decide) (by decide)⟩

/-- Claim C4 (confirmed): whenever `setHead` does not succeed — the
state-root precheck or the canonicality verification failed — none of
the iterator cursors `vm`, `safe`, `finalized` has been modified. -/
theorem c4_theorem (st : Engine) (blocks : List Block) (sb fb : Option Block)
    (h : (setHead st blocks sb fb).2 ≠ SetHeadRes.ok) :
    (setHead st blocks sb fb).1.chain.iterVm = st.chain.iterVm ∧
    (setHead st blocks sb fb).1.chain.iterSafe = st.chain.iterSafe ∧
    (setHead st blocks sb fb).1.chain.iterFinalized = st.chain.iterFinalized :=
  (setHead_not_ok_cursors st blocks sb fb).resolve_left h

/-- Witness for claim C4's theorem: a `setHead` failing the state-root
precheck leaves all cursors unchanged. -/
theorem c4_witness :
    (setHead stC5 [b11] none none).2 ≠ SetHeadRes.ok ∧
    ((setHead stC5 [b11] none none).1.chain.iterVm = stC5.chain.iterVm ∧
     (setHead stC5 [b11] none none).1.chain.iterSafe = stC5.chain.iterSafe ∧
     (setHead stC5 [b11] none none).1.chain.iterFinalized =
       stC5.chain.iterFinalized) :=
  ⟨by decide, c4_theorem stC5 [b11] none none (by decide)⟩

/-- Claim C5, amended (corrected): every `setHead` call that reaches
the receipt drain — i.e. is started, not shutting down, and passes the
vm-head state-root check — leaves no pending-receipt entry for any
block of its `blocks` argument (in particular for the last block `B`),
whether or not the later canonicality check succeeds. -/
theorem c5_theorem (st : Engine) (blocks : List Block) (sb fb : Option Block)
    (vmHead b : Block)
    (h1 : st.started = true) (h2 : st.shutdown = false)
    (h3 : blocks.getLast? = some vmHead)
    (h4 : st.stateRoots.contains vmHead.stateRoot = true)
    (h5 : b ∈ blocks) :
    alookup (setHead st blocks sb fb).1.pendingReceipts b.hash = none := by
  rw [setHead_success st blocks sb fb vmHead h1 h2 h3 h4]
  exact drain_mem blocks b h5 _

/-- Claim C5 counterexample: a `setHead` call that fails the vm-head
state-root precheck returns with the pending entry for the last block
still present — refuting "after every call `setHead([:.., B])` the
pendingReceipts map contains no entry for B's hash". -/
theorem c5_counterexample :
    alookup (setHead stC5 [b11] none none).1.pendingReceipts b11.hash =
      some [1, 2] := by
  decide

/-- Witness for claim C5's amended theorem at a concrete input. -/
theorem c5_witness :
    stC5w.started = true ∧ stC5w.stateRoots.contains b11.stateRoot = true ∧
    b11 ∈ [b11] ∧
    alookup (setHead stC5w [b11] none none).1.pendingReceipts b11.hash = none :=
  ⟨rfl, by decide, by decide,
    c5_theorem stC5w [b11] none none b11 b11 rfl rfl rfl (by decide) (by decide)⟩

/-- Claim C7, amended (corrected): with blocks 0…10 and
`numBlocksPerIteration = 4`, three successive `run(loop=false)` calls
return 4, 4 and 2, leaving the vm cursor at blocks 4, 8 and 10; in
general `run` returns the count of its last iterator batch, which is
the total executed only when a single batch ran. -/
theorem c7_theorem :
    c7runA.2 = RunRes.ret 4 ∧ c7runA.1.chain.iterVm = (mkBlock 4).hash ∧
    c7runB.2 = RunRes.ret 4 ∧ c7runB.1.chain.iterVm = (mkBlock 8).hash ∧
    c7runC.2 = RunRes.ret 2 ∧ c7runC.1.chain.iterVm = (mkBlock 10).hash := by
  decide

/-- Claim C7 counterexample: with blocks 0…3, `numBlocksPerIteration =
2` and `loop = true`, `run` executes three blocks (the cursor moves
from block 0 to block 3 and three receipt batches are saved) but
returns 1, the count of the final batch — refuting "a run invocation
returns the total number of blocks it executed". -/
theorem c7_counterexample :
    (run (cfgWith 2) stC7 true false 4).1.chain.iterVm = (mkBlock 3).hash ∧
    (run (cfgWith 2) stC7 true false 4).1.savedReceipts =
      [((mkBlock 3).hash, []), ((mkBlock 2).hash, []), ((mkBlock 1).hash, [])] ∧
    (run (cfgWith 2) stC7 true false 4).2 = RunRes.ret 1 ∧
    (run (cfgWith 2) stC7 true false 4).2 ≠ RunRes.ret 3 := by
  decide

/-- Claim C9 (confirmed): when the engine is not started or shutting
down, `runWithoutSetHead` and `setHead` return false and `run` returns
0, each leaving the engine — pending receipts, stores, cursors —
untouched; a non-blocking `runWithoutSetHead` while an execution is
running does the same. -/
theorem c9_theorem (cfg : ExecConfig) (st st2 : Engine) (b : Block)
    (rootOpt : Option Nat) (rcpts : Option (List Nat)) (blocking skipB : Bool)
    (blocks : List Block) (sb fb : Option Block) (loop rob : Bool) (fuel : Nat) :
    ((st.started = false ∨ st.shutdown = true) →
      runWithoutSetHead st b rootOpt rcpts blocking skipB = (st, RwsRes.retFalse) ∧
      setHead st blocks sb fb = (st, SetHeadRes.retFalse) ∧
      run cfg st loop rob fuel = (st, RunRes.ret 0)) ∧
    (st2.running = true →
      runWithoutSetHead st2 b rootOpt rcpts false skipB = (st2, RwsRes.retFalse)) := by
  constructor
  · intro h
    rcases h with h | h <;>
      exact ⟨by simp [runWithoutSetHead, h], by simp [setHead, h], by simp [run, h]⟩
  · intro h
    simp [runWithoutSetHead, h]

/-- Witness for claim C9's theorem: a stopped engine and a running
engine. -/
theorem c9_witness :
    (runWithoutSetHead stC9a b11 none none false false = (stC9a, RwsRes.retFalse) ∧
     setHead stC9a [b11] none none = (stC9a, SetHeadRes.retFalse) ∧
     run (cfgWith 4) stC9a true false 1 = (stC9a, RunRes.ret 0)) ∧
    runWithoutSetHead stC9b b11 none none false false = (stC9b, RwsRes.retFalse) :=
  ⟨(c9_theorem (cfgWith 4) stC9a stC9b b11 none none false false [b11] none none
      true false 1).1 (Or.inl rfl),
   (c9_theorem (cfgWith 4) stC9a stC9b b11 none none false false [b11] none none
      true false 1).2 rfl⟩

/-- Claim C10 (confirmed): in any state reachable by an interleaving
of `runWithLock` acquires and releases, at most one task is inside its
locked body. -/
theorem c10_theorem (s : LockSys) (hs : LockReachable s) (t1 t2 : Nat)
    (h1 : s.phase t1 = Phase.inBody) (h2 : s.phase t2 = Phase.inBody) :
    t1 = t2 := by
  have i := lockInv_reachable s hs
  exact Option.some.inj ((i t1 h1).symm.trans (i t2 h2))

/-- Witness for claim C10's theorem: after task 0 acquires the lock,
it is the unique task in its body. -/
theorem c10_witness :
    LockReachable lockS1 ∧ lockS1.phase 0 = Phase.inBody ∧ (0 : Nat) = 0 :=
  have hr : LockReachable lockS1 :=
    LockReachable.step LockReachable.init (LockStep.acquire initLock 0 rfl)
  ⟨hr, rfl, c10_theorem lockS1 hr 0 0 rfl rfl⟩

end VmExec
